import Mathlib

/-!
Verification development for the OCLC Broken Link Checker.

Shallow embedding of the repository's core modules:
  * `src/clients/http_client.py`  (HTTPClient: `_send`, `_can_access`, `get`, `head`)
  * `src/app/cache.py`            (Cache: `get_cached_objects`, `get_total_objects`)
  * `src/app/link_checker_core.py` (LinkCheckerCore: `find_resources`,
    `check_resources`, `check_results`)
  * `src/app/link_checker_controller.py` (`start_link_check._check`)

External effects (the network, the file system, `tldextract.get_domain`,
`urllib.robotparser`) are passed in as explicit parameters, so every
definition is an executable Lean function of its inputs.
-/

namespace OCLC

/-- A dynamically-typed Python value, as far as this code base needs:
the `HTTPResponse.content` field is declared `str` in the source dataclass but
`HTTPClient.get`/`head` also store the integer `-1` in it, so the embedding
keeps both possibilities. -/
inductive PyVal where
  | str (s : String)
  | int (n : Int)
deriving DecidableEq, Repr

/-- Python truthiness of a `PyVal` (`''` and `0` are falsy). -/
def PyVal.truthy : PyVal → Bool
  | .str s => !(s = "")
  | .int n => !(n = 0)

/-- Python `len` of a content value; only ever applied to strings in `_send`. -/
def PyVal.length : PyVal → Nat
  | .str s => s.length
  | .int _ => 0

/-- `http_client.HTTPResponse`: `{url, code, content}` with defaults
`('', -1, '')`. -/
structure HTTPResponse where
  url : String := ""
  code : Int := -1
  content : PyVal := .str ""
deriving DecidableEq, Repr

/-- `HTTPResponse.is_empty`: `not self.url and self.code == -1 and not self.content`. -/
def HTTPResponse.is_empty (r : HTTPResponse) : Bool :=
  r.url = "" && r.code = -1 && !r.content.truthy

/-- The empty `HTTPResponse()` built from the dataclass defaults. -/
def emptyResponse : HTTPResponse := {}

/-- HTTP methods supported by the client (`_is_valid_method`). -/
inductive Method where
  | GET
  | HEAD
deriving DecidableEq, Repr

/-- The accepted status codes of `_send._has_valid_code`. -/
def acceptedCodes : List Int := [200, 202, 400, 401, 403, 404, 410, 429, 451, 503]

/-- `_send._has_valid_code`: the response's code lies in the accepted set. -/
def has_valid_code (r : HTTPResponse) : Bool := acceptedCodes.contains r.code

/-- `_send._has_valid_content`: HEAD responses always pass; GET responses need
non-empty content. -/
def has_valid_content (m : Method) (r : HTTPResponse) : Bool :=
  match m with
  | .HEAD => true
  | .GET => decide (0 < r.content.length)

/-- The retry loop's exit test: valid code AND valid content. -/
def is_valid_response (m : Method) (r : HTTPResponse) : Bool :=
  has_valid_code r && has_valid_content m r

/-- One network interaction, as seen by `_send`: `none` models an attempt on
which `aiohttp` raised (timeout, connection error, bad URL, decode failure),
`some r` models a parsed response `r`. -/
def Server : Type := Nat → Option HTTPResponse

/-- The retry loop of `HTTPClient._send`, with `fuel = maxRetries + 1 - retries`
(the Python guard is `retries <= self.max_retries`).  Returns the value the
Python `finally` block returns together with the number of requests issued.
On an exception the loop is abandoned and the last parsed result (initially
`HTTPResponse()`) is returned; the post-loop `MaxRetriesExceeded` raise is
caught and does not change the returned value. -/
def sendLoop (server : Server) (m : Method) :
    Nat → Nat → HTTPResponse → Nat → HTTPResponse × Nat
  | 0, _, result, attempts => (result, attempts)
  | fuel + 1, retries, result, attempts =>
    if is_valid_response m result then (result, attempts)
    else
      match server retries with
      | none => (result, attempts + 1)
      | some resp => sendLoop server m fuel (retries + 1) resp (attempts + 1)

/-- `HTTPClient._send` with retries allowed: start from `HTTPResponse()` with
`retries = 0` and budget `max_retries + 1`. -/
def send (server : Server) (m : Method) (maxRetries : Nat) : HTTPResponse × Nat :=
  sendLoop server m (maxRetries + 1) 0 emptyResponse 0

/-- `HTTPClient._send` with `allow_retries = False`: exactly one request is
issued and its parsed response (or `HTTPResponse()` after an exception) is
returned. -/
def send_once (first : Option HTTPResponse) : HTTPResponse :=
  match first with
  | none => emptyResponse
  | some r => r

/-! ## `src/app/cache.py` -/

/-- `Cache.get_total_objects`: count the lines of the file and return
`count - 1 if count > 0 else 0`.  `none` models a file that cannot be opened
(missing or unreadable): the handler leaves `count = 0` and the `finally`
block returns 0. -/
def get_total_objects (file : Option (List String)) : Nat :=
  let count : Nat :=
    match file with
    | none => 0
    | some lines => lines.length
  if count > 0 then count - 1 else 0

/-- `Cache.get_cached_objects`: read the file's lines, then
`if randomize: random.shuffle(text[1:])`.  In Python `text[1:]` builds a NEW
list; `random.shuffle` permutes that copy in place and the copy is discarded,
so `text` itself is never reordered.  The embedding keeps the discarded call
as a dead binding.  `csv.DictReader(text)` then consumes `text[0]` as the
field names and yields one record per remaining line, so the function yields
the data rows in file order; `shuffle` stands for whatever permutation
`random.shuffle` would have produced. -/
def get_cached_objects (text : List String) (shuffle : List String → List String)
    (randomize : Bool) : List String :=
  let text :=
    if randomize then
      let _copy := shuffle (text.drop 1)
      text
    else text
  text.drop 1

/-! ## `HTTPClient._can_access`, `get`, `head`

The two per-domain policy dictionaries are modelled as association lists with
first-match lookup; a Python `dict[k] = v` assignment is a cons (the newest
binding shadows any older one).  `http_utils.get_domain` (tldextract) is an
opaque external function and is passed in as a parameter. -/

/-- The mutable per-domain state of an `HTTPClient`:
`_redirect_policies` and `_robots_policies`. -/
structure ClientState where
  redirect_policies : List (String × Bool) := []
  robots_policies : List (String × Bool) := []
deriving DecidableEq, Repr

/-- The configuration fields of an `HTTPClient` that `_can_access`/`get`/`head`
consult. -/
structure ClientConfig where
  ignorelist : List String := []
  enforce_ignorelist : Bool := true
  enforce_robots_policy : Bool := true
  check_domains_only : Bool := false
  max_retries : Nat := 2
deriving Repr

/-- The external world observed during one `get`/`head` call: the outcome of
the one-shot redirect HEAD probe, the outcome of the one-shot robots.txt GET
(both already in `send_once` form: an exception yields `HTTPResponse()`),
whether `urllib.robotparser` raises while parsing a 200 robots body, the
`can_fetch('*', url)` verdict it computes when it does not raise, and the
server behaviour of the final real request. -/
structure RequestEnv where
  probe : HTTPResponse := emptyResponse
  robots_fetch : HTTPResponse := emptyResponse
  robots_parse_raises : Bool := false
  robots_can_fetch : Bool := true
  real : Server := fun _ => none

/-- `_can_access._resolve_redirect`: if the domain is cached as
not-redirecting, reuse the URL with no probe; otherwise (no entry, or cached
as redirecting) issue the HEAD probe, take its URL as target when the probe
response is non-empty, and (re)record whether the domain redirected. -/
def resolve_redirect (get_domain : String → String) (st : ClientState)
    (url : String) (probe : HTTPResponse) : String × ClientState :=
  let domain := get_domain url
  match st.redirect_policies.lookup domain with
  | some false => (url, st)
  | _ =>
    let target := if !probe.is_empty then probe.url else url
    (target,
      { st with redirect_policies := (domain, decide (target ≠ url)) :: st.redirect_policies })

/-- The robots verdict computed by `_can_access._check_robots_txt` for a
domain with no cached entry.  `result` starts `True`; an empty domain raises
`MissingRobotsTxtURL` before any fetch (leaving `True`); a 200 response is
parsed (a parser exception leaves `True`, otherwise `can_fetch` decides); the
source then has `elif 400 <= code <= 499: result = False` and
`else: result = False`, both kept verbatim. -/
def robots_verdict (domain : String) (env : RequestEnv) : Bool :=
  if domain.length = 0 then true
  else if env.robots_fetch.code = 200 then
    (if env.robots_parse_raises then true else env.robots_can_fetch)
  else if 400 ≤ env.robots_fetch.code ∧ env.robots_fetch.code ≤ 499 then false
  else false

/-- `_can_access._check_robots_txt`, sequential form: a cached domain returns
its cached value untouched; otherwise the verdict is computed and recorded
(the `finally` block writes `_robots_policies[domain]` on every path).  The
`_tasks` future map only matters under concurrency and is modelled separately
below. -/
def check_robots_txt (st : ClientState) (domain : String) (env : RequestEnv) :
    Bool × ClientState :=
  match st.robots_policies.lookup domain with
  | some b => (b, st)
  | none =>
    let result := robots_verdict domain env
    (result, { st with robots_policies := (domain, result) :: st.robots_policies })

/-- `HTTPClient._can_access`: short-circuit to `(True, url)` when both
enforcement toggles are off; otherwise resolve the redirect, check the
ignorelist and the robots policy on the effective domain, and return
`(passed_ignorelist and passed_robots, target)`. -/
def can_access (get_domain : String → String) (cfg : ClientConfig)
    (st : ClientState) (url : String) (env : RequestEnv) :
    (Bool × String) × ClientState :=
  if !cfg.enforce_ignorelist && !cfg.enforce_robots_policy then ((true, url), st)
  else
    let rr := resolve_redirect get_domain st url env.probe
    let target := rr.1
    let st1 := rr.2
    let domain := get_domain target
    let passed_ignorelist :=
      if cfg.enforce_ignorelist then !(cfg.ignorelist.contains domain) else true
    let rb :=
      if cfg.enforce_robots_policy then check_robots_txt st1 domain env
      else (true, st1)
    ((passed_ignorelist && rb.1, target), rb.2)

/-- The Python exceptions that can escape `get`/`head` in the embedding. -/
inductive PyError where
  | keyError (key : String)
deriving DecidableEq, Repr

/-- `HTTPClient.get` / `HTTPClient.head` (they differ only in the method of
the final `_send`).  A policy denial returns `HTTPResponse(url, -1, -1)`
(the literal arguments of the source).  In `check_domains_only` mode the
result is synthesized from `self._robots_policies[get_domain(target)]` — a
plain `dict[...]` subscript, so a missing key raises `KeyError`.  Otherwise
the real request runs through the retry loop. -/
def request (get_domain : String → String) (cfg : ClientConfig)
    (st : ClientState) (m : Method) (url : String) (env : RequestEnv) :
    Except PyError HTTPResponse × ClientState :=
  let ca := can_access get_domain cfg st url env
  let access := ca.1.1
  let target := ca.1.2
  let st1 := ca.2
  if !access then (.ok { url := url, code := -1, content := .int (-1) }, st1)
  else if cfg.check_domains_only then
    match st1.robots_policies.lookup (get_domain target) with
    | some true => (.ok { url := url, code := 200, content := .str "" }, st1)
    | some false => (.ok { url := url, code := -1, content := .str "" }, st1)
    | none => (.error (.keyError (get_domain target)), st1)
  else (.ok (send env.real m cfg.max_retries).1, st1)

/-- `HTTPClient.get`. -/
def get (get_domain : String → String) (cfg : ClientConfig) (st : ClientState)
    (url : String) (env : RequestEnv) : Except PyError HTTPResponse × ClientState :=
  request get_domain cfg st .GET url env

/-- `HTTPClient.head`. -/
def head (get_domain : String → String) (cfg : ClientConfig) (st : ClientState)
    (url : String) (env : RequestEnv) : Except PyError HTTPResponse × ClientState :=
  request get_domain cfg st .HEAD url env

/-- A run of the client: a sequence of `get`/`head` calls, each with its own
URL and observed environment, threading the per-domain policy state. -/
def runClient (get_domain : String → String) (cfg : ClientConfig) :
    ClientState → List (Method × String × RequestEnv) → ClientState
  | st, [] => st
  | st, (m, url, env) :: ops =>
    runClient get_domain cfg (request get_domain cfg st m url env).2 ops

/-! ## Concurrent `_check_robots_txt` (request coalescing)

asyncio runs tasks cooperatively: code between two `await` points executes
atomically.  For M tasks all entering `_check_robots_txt` for one domain, the
atomic sections are:

  * `start`: the cached-policy check, the `_tasks.get` check, and (when both
    miss) creating the `Future` and storing it in `_tasks` — no `await`
    between them;
  * `fetching`: `await self._send(...)` for `/robots.txt` (skipped when the
    domain is empty: `MissingRobotsTxtURL` is raised before the fetch);
  * `resolving`: the `finally` block — write `_robots_policies[domain]` and
    `set_result` — then `return await robots_result` on the resolved future;
  * `awaiting`: `return await robots_result` on a future installed by another
    task.

The robots body and parse verdict are fixed by the remote server, so the
computed decision is the same `robots_verdict domain env` in every task. -/

/-- The program counter of one task inside `_check_robots_txt`. -/
inductive TaskPC where
  | start
  | awaiting
  | fetching
  | resolving
  | done (b : Bool)
deriving DecidableEq, Repr

/-- The shared state for one domain: `_robots_policies[domain]` (`policies`),
`_tasks[domain]` (`future`: absent / pending / resolved), the number of
robots.txt fetches issued so far, and every task's program counter. -/
structure CoState where
  policies : Option Bool
  future : Option (Option Bool)
  fetchCount : Nat
  tasks : Nat → TaskPC

/-- Initial state for `taskCount` tasks about to call `_check_robots_txt` on a
previously-unseen domain. -/
def coInit : CoState :=
  { policies := none, future := none, fetchCount := 0, tasks := fun _ => .start }

/-- Update one task's program counter. -/
def setTask (tasks : Nat → TaskPC) (i : Nat) (pc : TaskPC) : Nat → TaskPC :=
  fun k => if k = i then pc else tasks k

/-- One atomic step of task `i` (a no-op if `i` is out of range, the task is
finished, or the task is awaiting a still-pending future). -/
def coStep (domain : String) (r : Bool) (taskCount : Nat) (s : CoState) (i : Nat) :
    CoState :=
  if i < taskCount then
    match s.tasks i with
    | .start =>
      match s.policies with
      | some b => { s with tasks := setTask s.tasks i (.done b) }
      | none =>
        match s.future with
        | some (some b) => { s with tasks := setTask s.tasks i (.done b) }
        | some none => { s with tasks := setTask s.tasks i .awaiting }
        | none => { s with future := some none, tasks := setTask s.tasks i .fetching }
    | .awaiting =>
      match s.future with
      | some (some b) => { s with tasks := setTask s.tasks i (.done b) }
      | _ => s
    | .fetching =>
      if domain.length = 0 then
        -- `MissingRobotsTxtURL` is raised before the fetch; `result` is still
        -- `True` when the `finally` block records and resolves it.
        { s with policies := some true, future := some (some true),
                 tasks := setTask s.tasks i (.done true) }
      else
        { s with fetchCount := s.fetchCount + 1, tasks := setTask s.tasks i .resolving }
    | .resolving =>
      { s with policies := some r, future := some (some r),
               tasks := setTask s.tasks i (.done r) }
    | .done _ => s
  else s

/-- Run an arbitrary interleaving: the scheduler picks which task steps next. -/
def coRun (domain : String) (r : Bool) (taskCount : Nat) (s : CoState)
    (schedule : List Nat) : CoState :=
  schedule.foldl (coStep domain r taskCount) s

/-! ## `src/app/link_checker_core.py` and the controller's `_check` -/

/-- `api_client.ResourceMetadata`: `{cid, rid, title, link, code}`. -/
structure ResourceMetadata where
  cid : String := ""
  rid : String := ""
  title : String := ""
  link : String := ""
  code : Int := -1
deriving DecidableEq, Repr

/-- `ResourceMetadata.is_empty`: `not self.link`. -/
def ResourceMetadata.is_empty (r : ResourceMetadata) : Bool := r.link = ""

/-- One callback invocation observed by the pipeline's caller.  The controller
routes every start/progress/end callback to the `on_output_update` channel and
`on_cache_failure` to the `on_app_failure` channel; each constructor records
which callback fired (with the payloads the claims need). -/
inductive PipeEvent where
  | cache_start
  | cache_progress
  | cache_failure (msg : String)
  | cache_end
  | check_start
  | check_progress
  | check_end
  | analysis_start
  | analysis_progress (cid : String)
  | analysis_end (brokenTotal : Nat)
deriving DecidableEq, Repr

/-- `LinkCheckerCore.find_resources`.  Its inputs from the API client: the
connectivity-test status code and, per collection, the resources
`get_resources` yields.  On a 200 test every collection task caches its
non-empty resources and reports progress; on a 401 the credential failure
message goes to the failure callback; on any other status the connectivity
failure message does.  `on_cache_end_event` fires unconditionally after the
`async with` block on every path. -/
def find_resources (test_code : Int)
    (collections : List (List ResourceMetadata))
    (resource_cache : List ResourceMetadata) :
    List ResourceMetadata × List PipeEvent :=
  let start := [PipeEvent.cache_start]
  if test_code = 200 then
    let out := collections.foldl
      (fun acc resources =>
        (acc.1 ++ resources.filter (fun r => !r.is_empty), acc.2 ++ [.cache_progress]))
      (resource_cache, start)
    (out.1, out.2 ++ [.cache_end])
  else if test_code = 401 then
    (resource_cache,
      start ++ [.cache_failure "The WSKey was invalid.", .cache_end])
  else
    (resource_cache,
      start ++ [.cache_failure "Could not connect to the OCLC WorldCat Knowledge Base API endpoint.",
                .cache_end])

/-- `LinkCheckerCore.check_resources`: stream the resource cache (randomized
order — which, per `get_cached_objects`, is append order), HEAD each link,
attach the returned status code, and append to the results cache.
`status_of` is the status code the HTTP client's `head` reports per link. -/
def check_resources (resources : List ResourceMetadata)
    (status_of : String → Int) :
    List ResourceMetadata × List PipeEvent :=
  let results := resources.map (fun r => { r with code := status_of r.link })
  (results,
    [.check_start] ++ resources.map (fun _ => .check_progress) ++ [.check_end])

/-- Python's `round` rounds a tie to the nearest even integer; everything the
analysis needs is exact in ℚ. -/
def round_half_even (q : ℚ) : ℤ :=
  let f := ⌊q⌋
  if q - f < 1 / 2 then f
  else if 1 / 2 < q - f then f + 1
  else if Even f then f else f + 1

/-- Python `round(x, 2)`. -/
def py_round2 (q : ℚ) : ℚ := (round_half_even (q * 100) : ℚ) / 100

/-- `1 if int(result['code']) != 200 else 0`. -/
def broken_indicator (code : Int) : Nat := if code ≠ 200 then 1 else 0

/-- `defaultdict(list)` grouping: append `v` to the group of `k`, creating the
group at the end on first appearance (Python dicts preserve insertion order). -/
def add_to_group (acc : List (String × List Nat)) (k : String) (v : Nat) :
    List (String × List Nat) :=
  match acc with
  | [] => [(k, [v])]
  | (k', vs) :: rest =>
    if k' = k then (k', vs ++ [v]) :: rest else (k', vs) :: add_to_group rest k v

/-- `check_results.get_results`: one pass over the results store, collecting
`results[result['cid']].append(1 if int(result['code']) != 200 else 0)`.
A cached result row is its `(cid, code)` pair. -/
def get_results (rows : List (String × Int)) : List (String × List Nat) :=
  rows.foldl (fun acc r => add_to_group acc r.1 (broken_indicator r.2)) []

/-- What the Analyze stage produced: the reported collections (id and rounded
broken fraction, in report order), the final broken-collection count, and the
callback trace. -/
structure AnalysisResult where
  reported : List (String × ℚ)
  total_collections_broken : Nat
  events : List PipeEvent
deriving DecidableEq, Repr

/-- The loop body of `check_results`: judge one collection's group of 0/1
outcomes against the failure threshold. -/
def analysis_step (failure_threshold : ℚ) (acc : AnalysisResult)
    (g : String × List Nat) : AnalysisResult :=
  let total_resources := g.2.length
  let total_resources_broken := g.2.sum
  let percent_broken :=
    if total_resources > 0 then
      py_round2 ((total_resources_broken : ℚ) / (total_resources : ℚ))
    else 0
  if failure_threshold ≤ percent_broken then
    { reported := acc.reported ++ [(g.1, percent_broken)],
      total_collections_broken := acc.total_collections_broken + 1,
      events := acc.events ++ [.analysis_progress g.1] }
  else acc

/-- `LinkCheckerCore.check_results`: group the results store by collection id,
compute `round(total_resources_broken / total_resources, 2)` (0.0 when the
group is empty), report every collection whose fraction meets or exceeds the
failure threshold, and count them. -/
def check_results (rows : List (String × Int)) (failure_threshold : ℚ) :
    AnalysisResult :=
  let results := get_results rows
  let out := results.foldl (analysis_step failure_threshold)
    { reported := [], total_collections_broken := 0, events := [.analysis_start] }
  { out with
    events := out.events ++ [.analysis_end out.total_collections_broken] }

/-- The rounded broken fraction of one group of 0/1 outcomes (matches the
`percent_broken` computation inside `analysis_step`). -/
def percent_of (vs : List Nat) : ℚ :=
  if vs.length > 0 then py_round2 ((vs.sum : ℚ) / (vs.length : ℚ)) else 0

/-- `LinkCheckerController.start_link_check._check`: run `find_resources`,
then `check_resources`, then `check_results`, unconditionally in sequence,
and concatenate the callback invocations each stage makes. -/
def run_link_check (test_code : Int)
    (collections : List (List ResourceMetadata))
    (status_of : String → Int) (failure_threshold : ℚ) : List PipeEvent :=
  let fr := find_resources test_code collections []
  let cr := check_resources fr.1 status_of
  let ar := check_results (cr.1.map (fun r => (r.cid, r.code))) failure_threshold
  fr.2 ++ cr.2 ++ ar.events

/-! ## Spec-side definitions (for the refinement claims C8) -/

/-- Modelled from the claim's words: the distinct collection ids of the
results store, in order of first appearance. -/
def spec_collection_ids (rows : List (String × Int)) : List String :=
  rows.foldl (fun acc r => if acc.contains r.1 then acc else acc ++ [r.1]) []

/-- The group of 0/1 broken indicators that the records of collection `c`
contribute, in store order. -/
def group_values (rows : List (String × Int)) (c : String) : List Nat :=
  (rows.filter (fun r => decide (r.1 = c))).map (fun r => broken_indicator r.2)

/-- Modelled from the claim's words: a collection's broken ratio — the count
of its records with status code ≠ 200 divided by its total record count,
rounded to two decimal places, and 0.0 for an empty collection. -/
def spec_broken_fraction (rows : List (String × Int)) (cid : String) : ℚ :=
  let recs := rows.filter (fun r => r.1 = cid)
  if recs.length = 0 then 0
  else
    py_round2 (((recs.filter (fun r => r.2 ≠ 200)).length : ℚ) / (recs.length : ℚ))

/-- Modelled from the claim's words: the collections reported as broken —
exactly those whose broken ratio is ≥ the failure threshold. -/
def spec_broken_collections (rows : List (String × Int)) (threshold : ℚ) :
    List String :=
  (spec_collection_ids rows).filter
    (fun c => decide (threshold ≤ spec_broken_fraction rows c))

/-! ## Concrete instances used by counterexamples and witnesses -/

/-- A server that always answers 500 (never an accepted status code). -/
def server500 : Server := fun _ => some { url := "u", code := 500, content := .str "x" }

/-- `tldextract` treated as the identity on our toy URLs: the URL string is
its own domain. -/
def idDomain : String → String := fun s => s

/-- A client with only the ignorelist enforced, containing one domain. -/
def cfgIgnore : ClientConfig :=
  { ignorelist := ["blocked.example"], enforce_ignorelist := true,
    enforce_robots_policy := false, check_domains_only := false }

/-- A client in `check_domains_only` mode with both policy toggles off. -/
def cfgDomainsOnly : ClientConfig :=
  { ignorelist := [], enforce_ignorelist := false,
    enforce_robots_policy := false, check_domains_only := true }

/-- A client with robots enforcement on (ignorelist off). -/
def cfgRobots : ClientConfig :=
  { ignorelist := [], enforce_ignorelist := false,
    enforce_robots_policy := true, check_domains_only := false }

/-- An environment whose redirect probe lands on `w.example` (a non-empty
response with a different URL) and whose robots fetch succeeds and allows. -/
def envRedirects : RequestEnv :=
  { probe := { url := "w.example", code := 200, content := .str "x" },
    robots_fetch := { url := "w.example/robots.txt", code := 200, content := .str "ok" },
    robots_parse_raises := false, robots_can_fetch := true }

/-- An environment whose redirect probe fails (empty response) and whose
robots fetch succeeds and allows. -/
def envNoRedirect : RequestEnv :=
  { probe := emptyResponse,
    robots_fetch := { url := "u.example/robots.txt", code := 200, content := .str "ok" },
    robots_parse_raises := false, robots_can_fetch := true }

/-- An environment in which the robots.txt fetch fails outright: `_send`
degrades the exception to `HTTPResponse()`, status code −1 — not a client
error. -/
def envRobotsUnfetchable : RequestEnv := {}

/-- A resource of collection `"C1"`. -/
def resA : ResourceMetadata :=
  { cid := "C1", rid := "1", title := "a", link := "https://good.example/a" }

/-- The state-machine invariant for the concurrent `_check_robots_txt` runs
(`r` is the robots verdict the fetch computes): either no task has started
the check (no future, no policy, no fetch), or the future is pending and
exactly one task is carrying out the fetch (the count of issued fetches
matching how far it has got), or the check has resolved to `r` and every task
is untouched, awaiting, or finished with `r`. -/
def CoInv (r : Bool) (taskCount : Nat) (s : CoState) : Prop :=
  (s.policies = none ∧ s.future = none ∧ s.fetchCount = 0 ∧
    ∀ k, s.tasks k = .start) ∨
  (s.policies = none ∧ s.future = some none ∧
    ∃ j, j < taskCount ∧
      ((s.tasks j = .fetching ∧ s.fetchCount = 0) ∨
       (s.tasks j = .resolving ∧ s.fetchCount = 1)) ∧
      ∀ k, k ≠ j → s.tasks k = .start ∨ s.tasks k = .awaiting) ∨
  (s.policies = some r ∧ s.future = some (some r) ∧ s.fetchCount = 1 ∧
    ∀ k, s.tasks k = .start ∨ s.tasks k = .awaiting ∨ s.tasks k = .done r)

/-! # Theorems -/

/-! ## C9 — `count()` semantics -/

/-- C9: `count()` on a store whose file contains a header row and `k` data
rows returns `k`; on a missing, empty, or unreadable store it returns 0
(the store boundary absorbs the error; `get_total_objects` is total). -/
theorem C9_confirmed (header : String) (rows : List String) :
    get_total_objects (some (header :: rows)) = rows.length ∧
    get_total_objects none = 0 ∧
    get_total_objects (some []) = 0 := by
  refine ⟨?_, rfl, rfl⟩
  simp [get_total_objects]

/-! ## C3 — `stream(randomize=true)` never actually reorders -/

/-- C3 (code bug): `random.shuffle(text[1:])` shuffles a discarded copy of
the slice, so `stream(randomize=true)` coincides with
`stream(randomize=false)` for EVERY possible shuffle outcome, and on a store
with two distinct data records the yielded order is always the append order
(here even an order-reversing shuffle leaves the output unchanged), contrary
to the claim that some random choice yields a different order. -/
theorem C3_code_bug :
    (∀ (shuffle : List String → List String) (text : List String),
      get_cached_objects text shuffle true = get_cached_objects text shuffle false) ∧
    get_cached_objects ["cid,link", "r1", "r2"] List.reverse true = ["r1", "r2"] := by
  exact ⟨fun _ _ => rfl, rfl⟩

/-! ## C5 — the denied-request sentinel -/

/-- C5 (code bug): a policy-denied request (ignorelist hit) returns
`HTTPResponse(url, -1, -1)` — the content field is the INTEGER −1, not the
empty string the `HTTPResponse` dataclass declares and the sentinel
`{url, -1, ""}` requires. -/
theorem C5_code_bug :
    (get idDomain cfgIgnore {} "blocked.example" {}).1 =
      Except.ok { url := "blocked.example", code := -1, content := PyVal.int (-1) } ∧
    PyVal.int (-1) ≠ PyVal.str "" := by
  exact ⟨rfl, by decide⟩

/-! ## C7 — an exception escapes `get`/`head` -/

/-- C7 (code bug): in `check_domains_only` mode with robots enforcement off,
`_can_access` never populates `_robots_policies`, so
`self._robots_policies[get_domain(target)]` raises `KeyError` out of `get` —
the Fetcher does let an exception escape to its caller. -/
theorem C7_code_bug :
    (get idDomain cfgDomainsOnly {} "https://example.com/page" {}).1 =
      Except.error (PyError.keyError "https://example.com/page") := rfl

/-! ## C4 — the robots default on fetch/parse failure -/

/-- C4 counterexample: a robots.txt that cannot be fetched at all (the fetch
degrades to `HTTPResponse()`, status −1 — not a client-error status) yields
a DENY verdict, where the claim requires allow. -/
theorem C4_counterexample :
    robots_verdict "unreachable.example" envRobotsUnfetchable = false ∧
    envRobotsUnfetchable.robots_fetch.code = -1 ∧
    ¬(400 ≤ envRobotsUnfetchable.robots_fetch.code ∧
      envRobotsUnfetchable.robots_fetch.code ≤ 499) := by
  refine ⟨rfl, rfl, by decide⟩

/-- C4 amended: the robots verdict is allow exactly when the robots URL could
not be formed (empty domain) or the fetch returned a 200 response that either
fails to parse or permits the path; every other fetch outcome — including an
unfetchable file (status −1), redirects, server errors, and client errors —
yields deny. -/
theorem C4_amended (domain : String) (env : RequestEnv) :
    robots_verdict domain env = true ↔
      domain.length = 0 ∨
        (env.robots_fetch.code = 200 ∧
          (env.robots_parse_raises = true ∨ env.robots_can_fetch = true)) := by
  unfold robots_verdict
  split_ifs with h1 h2 h3 <;> simp_all

/-! ## C2 — the pipeline after a failed connectivity test -/

/-- C2 counterexample: with a connectivity-test status of 401 the failure
channel does receive the credential-error message, but the Check and Analyze
stages still run — their start events appear in the same pipeline trace. -/
theorem C2_counterexample :
    PipeEvent.cache_failure "The WSKey was invalid."
        ∈ run_link_check 401 [[resA]] (fun _ => 200) (1 / 2) ∧
    PipeEvent.check_start ∈ run_link_check 401 [[resA]] (fun _ => 200) (1 / 2) ∧
    PipeEvent.analysis_start ∈ run_link_check 401 [[resA]] (fun _ => 200) (1 / 2) := by
  refine ⟨?_, ?_, ?_⟩ <;> simp [run_link_check, find_resources, check_resources,
    check_results, get_results]

/-- C2 amended: a 401 connectivity test sends the credential-error message to
the failure channel and caches no resources, but the run is not halted: the
Check and Analyze stages still execute (over the empty stores), emitting
their start and end events. -/
theorem C2_amended (collections : List (List ResourceMetadata))
    (status_of : String → Int) (threshold : ℚ) :
    find_resources 401 collections [] =
      ([], [.cache_start, .cache_failure "The WSKey was invalid.", .cache_end]) ∧
    run_link_check 401 collections status_of threshold =
      [.cache_start, .cache_failure "The WSKey was invalid.", .cache_end,
       .check_start, .check_end, .analysis_start, .analysis_end 0] := by
  exact ⟨rfl, rfl⟩

/-! ## C1 — retry exhaustion -/

/-- The retry loop issues at most `attempts + fuel` requests. -/
theorem sendLoop_attempts_le (server : Server) (m : Method) :
    ∀ fuel retries result attempts,
      (sendLoop server m fuel retries result attempts).2 ≤ attempts + fuel := by
  intro fuel
  induction fuel with
  | zero => intro retries result attempts; simp [sendLoop]
  | succ n ih =>
    intro retries result attempts
    unfold sendLoop
    split
    · simp
    · cases h : server retries with
      | none =>
        show attempts + 1 ≤ attempts + (n + 1)
        omega
      | some resp =>
        refine le_trans (ih (retries + 1) resp (attempts + 1)) ?_
        omega

/-- Against a server that always answers the same never-accepted response,
the loop burns its whole budget and ends holding that response. -/
theorem sendLoop_const (server : Server) (m : Method) (r : HTTPResponse)
    (hs : ∀ i, server i = some r) (hr : is_valid_response m r = false) :
    ∀ fuel retries result attempts, is_valid_response m result = false →
      sendLoop server m (fuel + 1) retries result attempts = (r, attempts + fuel + 1) := by
  intro fuel
  induction fuel with
  | zero =>
    intro retries result attempts hres
    unfold sendLoop
    rw [hres, hs retries]
    simp [sendLoop]
  | succ n ih =>
    intro retries result attempts hres
    unfold sendLoop
    rw [hres, hs retries]
    simp only [Bool.false_eq_true, if_false]
    have := ih (retries + 1) r (attempts + 1) hr
    rw [this]
    congr 1
    omega

/-- C1 counterexample: against a server that always answers 500 (never an
accepted status), `_send` with `max_retries = 1` issues `maxRetries + 1 = 2`
requests and then returns THAT response — status code 500, not the −1
sentinel the claim promises. -/
theorem C1_counterexample :
    (send server500 .GET 1).1.code = 500 ∧
    (send server500 .GET 1).1.code ≠ -1 ∧
    (send server500 .GET 1).2 = 2 := by
  refine ⟨rfl, by decide, rfl⟩

/-- C1 amended: a request whose responses never carry an accepted status code
is attempted at most `maxRetries + 1` times and the call returns normally,
but what it returns is the LAST response received (its unaccepted status code
preserved); the sentinel `statusCode = -1` appears only when no response was
parsed at all. -/
theorem C1_amended (server : Server) (m : Method) (maxRetries : Nat)
    (r : HTTPResponse) :
    (send server m maxRetries).2 ≤ maxRetries + 1 ∧
    ((∀ i, server i = some r) → is_valid_response m r = false →
      send server m maxRetries = (r, maxRetries + 1)) := by
  constructor
  · simpa using sendLoop_attempts_le server m (maxRetries + 1) 0 emptyResponse 0
  · intro hs hr
    have hempty : is_valid_response m emptyResponse = false := by
      cases m <;> decide
    simpa using sendLoop_const server m r hs hr maxRetries 0 emptyResponse 0 hempty

/-! ## C6 — policy-cache monotonicity -/

/-- `_resolve_redirect` never touches the robots cache. -/
theorem resolve_redirect_robots (gd : String → String) (st : ClientState)
    (url : String) (probe : HTTPResponse) :
    (resolve_redirect gd st url probe).2.robots_policies = st.robots_policies := by
  cases h : st.redirect_policies.lookup (gd url) with
  | none => simp [resolve_redirect, h]
  | some b => cases b <;> simp [resolve_redirect, h]

/-- `_check_robots_txt` never touches the redirect cache. -/
theorem check_robots_txt_redirect (st : ClientState) (domain : String)
    (env : RequestEnv) :
    (check_robots_txt st domain env).2.redirect_policies = st.redirect_policies := by
  unfold check_robots_txt
  cases h : st.robots_policies.lookup domain <;> rfl

/-- `_check_robots_txt` preserves every recorded robots decision: it only
ever inserts an entry for a domain that had none. -/
theorem lookup_check_robots_txt (st : ClientState) (domain : String)
    (env : RequestEnv) (d : String) (b : Bool)
    (h : st.robots_policies.lookup d = some b) :
    (check_robots_txt st domain env).2.robots_policies.lookup d = some b := by
  unfold check_robots_txt
  cases hc : st.robots_policies.lookup domain with
  | some b2 => exact h
  | none =>
    have hne : (d == domain) = false := by
      rw [beq_eq_false_iff_ne]
      intro he
      rw [he, hc] at h
      simp at h
    simp [List.lookup, hne, h]

/-- `_resolve_redirect` preserves a recorded `False` redirect decision: the
cached-no-redirect fast path leaves the cache alone, and a re-probe can only
happen for a domain whose entry was absent or `True`. -/
theorem lookup_resolve_redirect_false (gd : String → String) (st : ClientState)
    (url : String) (probe : HTTPResponse) (d : String)
    (h : st.redirect_policies.lookup d = some false) :
    (resolve_redirect gd st url probe).2.redirect_policies.lookup d = some false := by
  cases hc : st.redirect_policies.lookup (gd url) with
  | none =>
    have hne : (d == gd url) = false := by
      rw [beq_eq_false_iff_ne]
      intro he
      rw [he, hc] at h
      simp at h
    simp [resolve_redirect, hc, List.lookup, hne, h]
  | some b =>
    cases b with
    | false => simpa [resolve_redirect, hc] using h
    | true =>
      have hne : (d == gd url) = false := by
        rw [beq_eq_false_iff_ne]
        intro he
        rw [he, hc] at h
        simp at h
      simp [resolve_redirect, hc, List.lookup, hne, h]

/-- `_can_access` preserves recorded robots decisions. -/
theorem can_access_robots_mono (gd : String → String) (cfg : ClientConfig)
    (st : ClientState) (url : String) (env : RequestEnv) (d : String) (b : Bool)
    (h : st.robots_policies.lookup d = some b) :
    (can_access gd cfg st url env).2.robots_policies.lookup d = some b := by
  have h1 : (resolve_redirect gd st url env.probe).2.robots_policies.lookup d = some b := by
    rw [resolve_redirect_robots]
    exact h
  have h2 := lookup_check_robots_txt (resolve_redirect gd st url env.probe).2
    (gd (resolve_redirect gd st url env.probe).1) env d b h1
  cases hi : cfg.enforce_ignorelist with
  | false =>
    cases he : cfg.enforce_robots_policy with
    | false => simpa [can_access, hi, he] using h
    | true => simpa [can_access, hi, he] using h2
  | true =>
    cases he : cfg.enforce_robots_policy with
    | false => simpa [can_access, hi, he] using h1
    | true => simpa [can_access, hi, he] using h2

/-- `_can_access` preserves a recorded `False` redirect decision. -/
theorem can_access_redirect_false (gd : String → String) (cfg : ClientConfig)
    (st : ClientState) (url : String) (env : RequestEnv) (d : String)
    (h : st.redirect_policies.lookup d = some false) :
    (can_access gd cfg st url env).2.redirect_policies.lookup d = some false := by
  have h1 := lookup_resolve_redirect_false gd st url env.probe d h
  have h2 : (check_robots_txt (resolve_redirect gd st url env.probe).2
      (gd (resolve_redirect gd st url env.probe).1) env).2.redirect_policies.lookup d =
      some false := by
    rw [check_robots_txt_redirect]
    exact h1
  cases hi : cfg.enforce_ignorelist with
  | false =>
    cases he : cfg.enforce_robots_policy with
    | false => simpa [can_access, hi, he] using h
    | true => simpa [can_access, hi, he] using h2
  | true =>
    cases he : cfg.enforce_robots_policy with
    | false => simpa [can_access, hi, he] using h1
    | true => simpa [can_access, hi, he] using h2

/-- Every branch of `get`/`head` hands back exactly the state `_can_access`
produced. -/
theorem request_state (gd : String → String) (cfg : ClientConfig)
    (st : ClientState) (m : Method) (url : String) (env : RequestEnv) :
    (request gd cfg st m url env).2 = (can_access gd cfg st url env).2 := by
  rcases hca : can_access gd cfg st url env with ⟨⟨acc, tgt⟩, st1⟩
  cases acc with
  | false => simp [request, hca]
  | true =>
    by_cases hd : cfg.check_domains_only
    · cases hx : st1.robots_policies.lookup (gd tgt) with
      | none => simp [request, hca, hd, hx]
      | some b2 => cases b2 <;> simp [request, hca, hd, hx]
    · simp [request, hca, hd]

/-- The client-run fold for C6: each `get`/`head` call preserves recorded
robots decisions and recorded `False` redirect decisions. -/
theorem runClient_mono (gd : String → String) (cfg : ClientConfig)
    (ops : List (Method × String × RequestEnv)) :
    ∀ (st : ClientState) (d : String) (b : Bool),
      (st.robots_policies.lookup d = some b →
        (runClient gd cfg st ops).robots_policies.lookup d = some b) ∧
      (st.redirect_policies.lookup d = some false →
        (runClient gd cfg st ops).redirect_policies.lookup d = some false) := by
  induction ops with
  | nil => intro st d b; exact ⟨fun h => h, fun h => h⟩
  | cons op rest ih =>
    intro st d b
    obtain ⟨m, url, env⟩ := op
    constructor
    · intro h
      refine (ih _ d b).1 ?_
      rw [request_state]
      exact can_access_robots_mono gd cfg st url env d b h
    · intro h
      refine (ih _ d b).2 ?_
      rw [request_state]
      exact can_access_redirect_false gd cfg st url env d h

/-- C6 counterexample: two successive `head` calls for `u.example`.  The
first probe observes a redirect, recording the redirect decision `True`; the
claim says that recorded value can no longer change, yet the second call
re-probes (the probe now fails, so the target falls back to the original
URL) and overwrites the entry with `False`. -/
theorem C6_counterexample :
    (runClient idDomain cfgRobots {} [(.HEAD, "u.example", envRedirects)]).redirect_policies.lookup
        "u.example" = some true ∧
    (runClient idDomain cfgRobots {}
        [(.HEAD, "u.example", envRedirects), (.HEAD, "u.example", envNoRedirect)]).redirect_policies.lookup
        "u.example" = some false := by
  constructor <;> rfl

/-- C6 amended: within one run, a recorded robots decision never changes, and
a redirect decision recorded as `False` never changes; only a redirect
decision recorded as `True` can later be overwritten (it is re-probed on each
subsequent request to that domain). -/
theorem C6_amended (gd : String → String) (cfg : ClientConfig)
    (ops : List (Method × String × RequestEnv)) (st : ClientState) (d : String)
    (b : Bool) :
    (st.robots_policies.lookup d = some b →
      (runClient gd cfg st ops).robots_policies.lookup d = some b) ∧
    (st.redirect_policies.lookup d = some false →
      (runClient gd cfg st ops).redirect_policies.lookup d = some false) :=
  runClient_mono gd cfg ops st d b

/-- C6 amended, witness: starting from a state with a robots decision for
`x.example` and a `False` redirect decision for `y.example`, the two-call run
of the counterexample leaves both entries intact. -/
theorem C6_amended_witness :
    (runClient idDomain cfgRobots
        { redirect_policies := [("y.example", false)],
          robots_policies := [("x.example", true)] }
        [(.HEAD, "u.example", envRedirects),
         (.HEAD, "u.example", envNoRedirect)]).robots_policies.lookup
      "x.example" = some true ∧
    (runClient idDomain cfgRobots
        { redirect_policies := [("y.example", false)],
          robots_policies := [("x.example", true)] }
        [(.HEAD, "u.example", envRedirects),
         (.HEAD, "u.example", envNoRedirect)]).redirect_policies.lookup
      "y.example" = some false := by
  refine ⟨(C6_amended idDomain cfgRobots _ _ "x.example" true).1 (by rfl),
    (C6_amended idDomain cfgRobots _ _ "y.example" true).2 (by rfl)⟩

/-! ## C8 — the Analyze stage -/

/-- Summing the 0/1 broken indicators of a list of records counts its
records with status code ≠ 200. -/
theorem sum_broken_indicator (xs : List (String × Int)) :
    (xs.map (fun r => broken_indicator r.2)).sum =
      (xs.filter (fun r => decide (r.2 ≠ 200))).length := by
  induction xs with
  | nil => rfl
  | cons x xs ih =>
    by_cases hx : x.2 = 200
    · have h1 : broken_indicator x.2 = 0 := by simp [broken_indicator, hx]
      have h2 : (decide (x.2 ≠ 200)) = false := by simp [hx]
      rw [List.map_cons, List.sum_cons, List.filter_cons, h1, h2, ih]
      simp
    · have h1 : broken_indicator x.2 = 1 := by simp [broken_indicator, hx]
      have h2 : (decide (x.2 ≠ 200)) = true := by simp [hx]
      rw [List.map_cons, List.sum_cons, List.filter_cons, h1, h2, ih]
      simp [Nat.add_comm]

/-- The `percent_broken` a group's indicators produce is the claim's broken
ratio of the corresponding collection. -/
theorem percent_group_values (rows : List (String × Int)) (c : String) :
    percent_of (group_values rows c) = spec_broken_fraction rows c := by
  unfold percent_of group_values spec_broken_fraction
  rw [List.length_map, sum_broken_indicator]
  by_cases h : (rows.filter (fun r => decide (r.1 = c))).length = 0
  · simp [h]
  · have h2 : 0 < (rows.filter (fun r => decide (r.1 = c))).length :=
      Nat.pos_of_ne_zero h
    simp [h, h2]

/-- One analysis step, written with `percent_of`. -/
theorem analysis_step_eq (t : ℚ) (acc : AnalysisResult) (g : String × List Nat) :
    analysis_step t acc g =
      if t ≤ percent_of g.2 then
        { reported := acc.reported ++ [(g.1, percent_of g.2)],
          total_collections_broken := acc.total_collections_broken + 1,
          events := acc.events ++ [.analysis_progress g.1] }
      else acc := rfl

/-- The analysis fold appends one report per group whose fraction meets the
threshold and counts them. -/
theorem foldl_analysis_step (t : ℚ) (gs : List (String × List Nat)) :
    ∀ acc : AnalysisResult,
      gs.foldl (analysis_step t) acc =
        { reported := acc.reported ++
            (gs.filter (fun g => decide (t ≤ percent_of g.2))).map
              (fun g => (g.1, percent_of g.2)),
          total_collections_broken := acc.total_collections_broken +
            (gs.filter (fun g => decide (t ≤ percent_of g.2))).length,
          events := acc.events ++
            (gs.filter (fun g => decide (t ≤ percent_of g.2))).map
              (fun g => PipeEvent.analysis_progress g.1) } := by
  induction gs with
  | nil => intro acc; simp
  | cons g gs ih =>
    intro acc
    rw [List.foldl_cons, analysis_step_eq]
    by_cases hg : t ≤ percent_of g.2
    · rw [if_pos hg, ih]
      simp [hg]
      omega
    · rw [if_neg hg, ih]
      simp [hg]

/-- `add_to_group` on a list that is the grouped image of distinct ids:
append to the existing group, or add a fresh group at the end. -/
theorem add_to_group_map (k : String) (v : Nat) (g : String → List Nat) :
    ∀ ids : List String, ids.Nodup →
      add_to_group (ids.map (fun c => (c, g c))) k v =
        (if ids.contains k then
          ids.map (fun c => (c, if c = k then g c ++ [v] else g c))
        else ids.map (fun c => (c, g c)) ++ [(k, [v])]) := by
  intro ids
  induction ids with
  | nil => intro _; rfl
  | cons c ids ih =>
    intro hnd
    have hctail : c ∉ ids := (List.nodup_cons.1 hnd).1
    have hndtail : ids.Nodup := (List.nodup_cons.1 hnd).2
    by_cases hck : c = k
    · subst hck
      have hcon : (c :: ids).contains c = true := by simp
      have hmap : ids.map (fun a => (a, if a = c then g a ++ [v] else g a)) =
          ids.map (fun a => (a, g a)) := by
        refine List.map_congr_left ?_
        intro a ha
        have hne : a ≠ c := fun he => hctail (he ▸ ha)
        simp [hne]
      simp [add_to_group, hcon, hmap]
    · have hkc : (k == c) = false := by
        rw [beq_eq_false_iff_ne]
        exact fun he => hck he.symm
      have hcon : (c :: ids).contains k = ids.contains k := by
        rw [List.contains_cons, hkc, Bool.false_or]
      simp only [List.map_cons, add_to_group, if_neg hck, ih hndtail, hcon]
      by_cases hik : ids.contains k
      · rw [if_pos hik, if_pos hik]
      · rw [if_neg hik, if_neg hik, List.cons_append]

/-- The collection-id fold over one appended record. -/
theorem spec_ids_snoc (rows : List (String × Int)) (r : String × Int) :
    spec_collection_ids (rows ++ [r]) =
      (if (spec_collection_ids rows).contains r.1 then spec_collection_ids rows
       else spec_collection_ids rows ++ [r.1]) := by
  unfold spec_collection_ids
  rw [List.foldl_append]
  rfl

/-- A string is among the collected ids exactly when some record carries it. -/
theorem spec_ids_mem (rows : List (String × Int)) (c : String) :
    c ∈ spec_collection_ids rows ↔ c ∈ rows.map (fun r => r.1) := by
  induction rows using List.reverseRecOn with
  | nil => simp [spec_collection_ids]
  | append_singleton rows r ih =>
    rw [spec_ids_snoc]
    by_cases hc : (spec_collection_ids rows).contains r.1
    · rw [if_pos hc]
      have h1 : r.1 ∈ spec_collection_ids rows := by simpa using hc
      simp only [List.map_append, List.mem_append, List.map_cons, List.map_nil,
        List.mem_singleton]
      constructor
      · intro h
        exact Or.inl (ih.1 h)
      · rintro (h | h)
        · exact ih.2 h
        · exact h ▸ h1
    · rw [if_neg hc]
      simp only [List.mem_append, List.mem_singleton, List.map_append,
        List.map_cons, List.map_nil, ih]

/-- The collected ids are distinct. -/
theorem spec_ids_nodup (rows : List (String × Int)) :
    (spec_collection_ids rows).Nodup := by
  induction rows using List.reverseRecOn with
  | nil => simp [spec_collection_ids]
  | append_singleton rows r ih =>
    rw [spec_ids_snoc]
    by_cases hc : (spec_collection_ids rows).contains r.1
    · rwa [if_pos hc]
    · rw [if_neg hc]
      have hmem : r.1 ∉ spec_collection_ids rows := by simpa using hc
      rw [List.nodup_append]
      exact ⟨ih, List.nodup_singleton _, by simpa using hmem⟩

/-- A collection id carried by no record filters to the empty record list. -/
theorem filter_cid_nil (rows : List (String × Int)) (c : String)
    (h : c ∉ rows.map (fun r => r.1)) :
    rows.filter (fun r => decide (r.1 = c)) = [] := by
  rw [List.filter_eq_nil_iff]
  intro r hr
  simp only [decide_eq_true_eq]
  intro he
  exact h (List.mem_map.2 ⟨r, hr, he⟩)

/-- Appending one record extends exactly its collection's group. -/
theorem group_values_snoc (rows : List (String × Int)) (r : String × Int)
    (c : String) :
    group_values (rows ++ [r]) c =
      group_values rows c ++ if r.1 = c then [broken_indicator r.2] else [] := by
  unfold group_values
  rw [List.filter_append, List.map_append]
  congr 1
  by_cases h : r.1 = c <;> simp [List.filter, h]

/-- `get_results` is the first-appearance grouping of the store: one group
per collection id, holding that collection's indicators in store order. -/
theorem get_results_eq (rows : List (String × Int)) :
    get_results rows =
      (spec_collection_ids rows).map (fun c => (c, group_values rows c)) := by
  induction rows using List.reverseRecOn with
  | nil => rfl
  | append_singleton rows r ih =>
    have hstep : get_results (rows ++ [r]) =
        add_to_group (get_results rows) r.1 (broken_indicator r.2) := by
      unfold get_results
      rw [List.foldl_append]
      rfl
    rw [hstep, ih,
      add_to_group_map r.1 (broken_indicator r.2) (group_values rows)
        (spec_collection_ids rows) (spec_ids_nodup rows),
      spec_ids_snoc]
    by_cases hc : (spec_collection_ids rows).contains r.1
    · rw [if_pos hc, if_pos hc]
      refine List.map_congr_left ?_
      intro a _
      rw [group_values_snoc]
      by_cases hac : a = r.1
      · subst hac
        simp
      · have : r.1 ≠ a := fun he => hac he.symm
        simp [hac, this]
    · rw [if_neg hc, if_neg hc, List.map_append]
      have hmem : r.1 ∉ spec_collection_ids rows := by simpa using hc
      congr 1
      · refine List.map_congr_left ?_
        intro a ha
        have hne : r.1 ≠ a := fun he => hmem (he ▸ ha)
        rw [group_values_snoc]
        simp [hne]
      · rw [List.map_singleton, group_values_snoc]
        have hnil : group_values rows r.1 = [] := by
          unfold group_values
          rw [filter_cid_nil rows r.1 ((spec_ids_mem rows r.1).not.1 hmem)]
          rfl
        simp [hnil]

/-- C8: the Analyze stage reports exactly the collections whose broken ratio
(count of non-200 records over total records, rounded to two decimals, 0.0
when empty) meets or exceeds the failure threshold, pairing each with that
ratio, and its final count is the number of such collections. -/
theorem C8_confirmed (rows : List (String × Int)) (threshold : ℚ) :
    (check_results rows threshold).reported =
      (spec_broken_collections rows threshold).map
        (fun c => (c, spec_broken_fraction rows c)) ∧
    (check_results rows threshold).total_collections_broken =
      (spec_broken_collections rows threshold).length := by
  have hpred : ∀ c, (decide (threshold ≤ percent_of (group_values rows c))) =
      (decide (threshold ≤ spec_broken_fraction rows c)) := by
    intro c
    rw [percent_group_values]
  have hfilter :
      ((spec_collection_ids rows).map (fun c => (c, group_values rows c))).filter
        (fun g => decide (threshold ≤ percent_of g.2)) =
      (spec_broken_collections rows threshold).map
        (fun c => (c, group_values rows c)) := by
    rw [List.filter_map]
    unfold spec_broken_collections
    congr 1
    refine List.filter_congr ?_
    intro c _
    simpa using hpred c
  constructor
  · have hrep : (check_results rows threshold).reported =
        ((get_results rows).filter (fun g => decide (threshold ≤ percent_of g.2))).map
          (fun g => (g.1, percent_of g.2)) := by
      simp [check_results, foldl_analysis_step]
    rw [hrep, get_results_eq, hfilter, List.map_map]
    refine List.map_congr_left ?_
    intro c _
    simp [Function.comp, percent_group_values]
  · have hcnt : (check_results rows threshold).total_collections_broken =
        ((get_results rows).filter (fun g => decide (threshold ≤ percent_of g.2))).length := by
      simp [check_results, foldl_analysis_step]
    rw [hcnt, get_results_eq, hfilter, List.length_map]

/-! ## C10 — robots-fetch coalescing under interleaving -/

/-- Setting a task's pc is visible at that index. -/
theorem setTask_self (tasks : Nat → TaskPC) (i : Nat) (pc : TaskPC) :
    setTask tasks i pc i = pc := by
  simp [setTask]

/-- Setting a task's pc leaves every other index unchanged. -/
theorem setTask_other (tasks : Nat → TaskPC) (i k : Nat) (pc : TaskPC)
    (h : k ≠ i) : setTask tasks i pc k = tasks k := by
  simp [setTask, h]

/-- Every atomic step preserves the coalescing invariant (for a real domain,
whose robots fetch is not skipped). -/
theorem coStep_inv (domain : String) (r : Bool) (M : Nat)
    (hdom : domain.length ≠ 0) (s : CoState) (i : Nat) (h : CoInv r M s) :
    CoInv r M (coStep domain r M s i) := by
  by_cases hi : i < M
  case neg => simpa [coStep, hi] using h
  rcases h with ⟨hp, hf, hc, hall⟩ | ⟨hp, hf, j, hj, hact, hoth⟩ | ⟨hp, hf, hc, hall⟩
  · -- no task has started the check yet: task i installs the future
    have hpc := hall i
    have hstep : coStep domain r M s i =
        { s with future := some none, tasks := setTask s.tasks i .fetching } := by
      simp [coStep, hi, hpc, hp, hf]
    rw [hstep]
    refine Or.inr (Or.inl ⟨hp, rfl, i, hi, Or.inl ⟨setTask_self _ _ _, hc⟩, ?_⟩)
    intro k hk
    simp only [setTask_other _ _ _ _ hk]
    exact Or.inl (hall k)
  · -- the future is pending and task j is carrying out the fetch
    by_cases hij : i = j
    · subst hij
      rcases hact with ⟨hjf, hcnt⟩ | ⟨hjr, hcnt⟩
      · have hd0 : ¬domain.length = 0 := hdom
        have hstep : coStep domain r M s i =
            { s with fetchCount := s.fetchCount + 1,
                     tasks := setTask s.tasks i .resolving } := by
          simp [coStep, hi, hjf, hd0]
        rw [hstep]
        refine Or.inr (Or.inl ⟨hp, hf, i, hi,
          Or.inr ⟨setTask_self _ _ _, by simp [hcnt]⟩, ?_⟩)
        intro k hk
        simp only [setTask_other _ _ _ _ hk]
        exact hoth k hk
      · have hstep : coStep domain r M s i =
            { s with policies := some r, future := some (some r),
                     tasks := setTask s.tasks i (.done r) } := by
          simp [coStep, hi, hjr]
        rw [hstep]
        refine Or.inr (Or.inr ⟨rfl, rfl, hcnt, ?_⟩)
        intro k
        by_cases hk : k = i
        · subst hk
          exact Or.inr (Or.inr (setTask_self _ _ _))
        · simp only [setTask_other _ _ _ _ hk]
          rcases hoth k hk with h1 | h1
          · exact Or.inl h1
          · exact Or.inr (Or.inl h1)
    · have hji : j ≠ i := fun he => hij he.symm
      rcases hoth i hij with hpc | hpc
      · -- a fresh task joins: it finds the pending future and awaits it
        have hstep : coStep domain r M s i =
            { s with tasks := setTask s.tasks i .awaiting } := by
          simp [coStep, hi, hpc, hp, hf]
        rw [hstep]
        refine Or.inr (Or.inl ⟨hp, hf, j, hj, ?_, ?_⟩)
        · rcases hact with ⟨h1, h2⟩ | ⟨h1, h2⟩
          · exact Or.inl ⟨by simp only [setTask_other _ _ _ _ hji]; exact h1, h2⟩
          · exact Or.inr ⟨by simp only [setTask_other _ _ _ _ hji]; exact h1, h2⟩
        · intro k hk
          by_cases hki : k = i
          · subst hki
            exact Or.inr (setTask_self _ _ _)
          · simp only [setTask_other _ _ _ _ hki]
            exact hoth k hk
      · -- an awaiting task is not runnable while the future is pending
        have hstep : coStep domain r M s i = s := by
          simp [coStep, hi, hpc, hf]
        rw [hstep]
        exact Or.inr (Or.inl ⟨hp, hf, j, hj, hact, hoth⟩)
  · -- the check has resolved: stragglers read the cache or the resolved future
    rcases hall i with hpc | hpc | hpc
    · have hstep : coStep domain r M s i =
          { s with tasks := setTask s.tasks i (.done r) } := by
        simp [coStep, hi, hpc, hp]
      rw [hstep]
      refine Or.inr (Or.inr ⟨hp, hf, hc, ?_⟩)
      intro k
      by_cases hk : k = i
      · subst hk
        exact Or.inr (Or.inr (setTask_self _ _ _))
      · simp only [setTask_other _ _ _ _ hk]
        exact hall k
    · have hstep : coStep domain r M s i =
          { s with tasks := setTask s.tasks i (.done r) } := by
        simp [coStep, hi, hpc, hp, hf]
      rw [hstep]
      refine Or.inr (Or.inr ⟨hp, hf, hc, ?_⟩)
      intro k
      by_cases hk : k = i
      · subst hk
        exact Or.inr (Or.inr (setTask_self _ _ _))
      · simp only [setTask_other _ _ _ _ hk]
        exact hall k
    · have hstep : coStep domain r M s i = s := by
        simp [coStep, hi, hpc]
      rw [hstep]
      exact Or.inr (Or.inr ⟨hp, hf, hc, hall⟩)

/-- The invariant holds along every schedule. -/
theorem coRun_inv (domain : String) (r : Bool) (M : Nat)
    (hdom : domain.length ≠ 0) (schedule : List Nat) :
    ∀ s : CoState, CoInv r M s → CoInv r M (coRun domain r M s schedule) := by
  induction schedule with
  | nil => intro s h; exact h
  | cons i rest ih =>
    intro s h
    exact ih _ (coStep_inv domain r M hdom s i h)

/-- C10: for M concurrent `_check_robots_txt` calls on one previously-unseen
(non-empty) domain, under every asyncio interleaving that runs all M tasks to
completion, exactly one robots.txt fetch is issued, and every task finishes
with the same verdict — the one the robots response determines. -/
theorem C10_confirmed (domain : String) (env : RequestEnv) (M : Nat)
    (schedule : List Nat) (hdom : domain.length ≠ 0) (hM : 0 < M)
    (hdone : ∀ k, k < M → ∃ b,
      (coRun domain (robots_verdict domain env) M coInit schedule).tasks k =
        TaskPC.done b) :
    (coRun domain (robots_verdict domain env) M coInit schedule).fetchCount = 1 ∧
    ∀ k, k < M →
      (coRun domain (robots_verdict domain env) M coInit schedule).tasks k =
        TaskPC.done (robots_verdict domain env) := by
  have hinv : CoInv (robots_verdict domain env) M
      (coRun domain (robots_verdict domain env) M coInit schedule) :=
    coRun_inv domain (robots_verdict domain env) M hdom schedule coInit
      (Or.inl ⟨rfl, rfl, rfl, fun _ => rfl⟩)
  rcases hinv with ⟨hp, hf, hc, hall⟩ | ⟨hp, hf, j, hj, hact, hoth⟩ | ⟨hp, hf, hc, hall⟩
  · obtain ⟨b, hb⟩ := hdone 0 hM
    rw [hall 0] at hb
    simp at hb
  · obtain ⟨b, hb⟩ := hdone j hj
    rcases hact with ⟨hjf, _⟩ | ⟨hjr, _⟩
    · rw [hjf] at hb
      simp at hb
    · rw [hjr] at hb
      simp at hb
  · refine ⟨hc, ?_⟩
    intro k hk
    obtain ⟨b, hb⟩ := hdone k hk
    rcases hall k with h1 | h1 | h1
    · rw [h1] at hb
      simp at hb
    · rw [h1] at hb
      simp at hb
    · exact h1

/-- C10 witness: two tasks on domain `"d"` under the schedule in which task 0
installs the future, fetches and resolves, and task 1 then reads the cached
verdict: one fetch, both tasks finish with the same verdict. -/
theorem C10_confirmed_witness :
    (coRun "d" (robots_verdict "d" envRobotsUnfetchable) 2 coInit
      [0, 0, 0, 1]).fetchCount = 1 ∧
    (coRun "d" (robots_verdict "d" envRobotsUnfetchable) 2 coInit
      [0, 0, 0, 1]).tasks 0 =
      TaskPC.done (robots_verdict "d" envRobotsUnfetchable) ∧
    (coRun "d" (robots_verdict "d" envRobotsUnfetchable) 2 coInit
      [0, 0, 0, 1]).tasks 1 =
      TaskPC.done (robots_verdict "d" envRobotsUnfetchable) := by
  have hdone : ∀ k, k < 2 → ∃ b,
      (coRun "d" (robots_verdict "d" envRobotsUnfetchable) 2 coInit
        [0, 0, 0, 1]).tasks k = TaskPC.done b := by
    intro k hk
    interval_cases k
    · exact ⟨false, rfl⟩
    · exact ⟨false, rfl⟩
  have h := C10_confirmed "d" envRobotsUnfetchable 2 [0, 0, 0, 1]
    (by decide) (by decide) hdone
  exact ⟨h.1, h.2 0 (by decide), h.2 1 (by decide)⟩

/-- C1 amended, witness: at `max_retries = 1` against the constant-500
server, the amended theorem evaluates: two attempts, the 500 response
returned. -/
theorem C1_amended_witness :
    (send server500 .GET 1).2 ≤ 1 + 1 ∧
    send server500 .GET 1 =
      ({ url := "u", code := 500, content := .str "x" }, 1 + 1) := by
  refine ⟨(C1_amended server500 .GET 1 { url := "u", code := 500, content := .str "x" }).1,
    (C1_amended server500 .GET 1 { url := "u", code := 500, content := .str "x" }).2
      (fun _ => rfl) (by decide)⟩
